import Mathlib

/-
Verification development for the ASS-to-JSON subtitle converter
(`ass_to_json.py`).

Modelling conventions:
  * A line of the input file is a `List Char`.  Python iterates the file
    line by line; each yielded line carries its trailing newline except
    possibly the last.  We model lines without the trailing newline.
    This is faithful: the newline can only sit at the very end of a line,
    where it is either absorbed by the final `(.*)` group's right edge
    (the regex `.` stops at a newline, and `str.strip` would delete the
    newline anyway) or by a final `[^,]*` that fails for lack of a comma
    exactly as it does without the newline.
  * Machine strings are plain `List Char`; all functions are executable.
-/

/-- Character list of the literal `Dialogue:` used by `line.startswith('Dialogue:')`. -/
def markerNoSpace : List Char := ['D', 'i', 'a', 'l', 'o', 'g', 'u', 'e', ':']

/-- Character list of the literal `Dialogue: ` (with trailing space) that opens the
compiled regular expression `dialogue_pattern`. -/
def markerSpace : List Char := ['D', 'i', 'a', 'l', 'o', 'g', 'u', 'e', ':', ' ']

/-- Embedding of Python `s.startswith(p)`: `pyStartswith s p` is `true` iff the
character list `p` is an initial segment of `s`. -/
def pyStartswith : List Char → List Char → Bool
  | _, [] => true
  | [], _ :: _ => false
  | c :: cs, p :: ps => (c == p) && pyStartswith cs ps

/-- Consume one `[^,]*,` unit of the regular expression: the (unique, greedy)
longest comma-free run of characters followed by the comma that terminates it.
Returns the run and the remainder after the comma, or `none` when the input
contains no comma (in which case the regex unit cannot match at all, since
backtracking only shortens the run and then demands a comma even earlier). -/
def chompField : List Char → Option (List Char × List Char)
  | [] => none
  | c :: cs =>
    if c = ',' then some ([], cs)
    else
      match chompField cs with
      | none => none
      | some (f, r) => some (c :: f, r)

/-- Consume `n` consecutive `[^,]*,` units, returning the `n` comma-free fields in
order together with the remainder after the `n`-th comma. -/
def chompFields : Nat → List Char → Option (List (List Char) × List Char)
  | 0, l => some ([], l)
  | n + 1, l =>
    match chompField l with
    | none => none
    | some (f, r) =>
      match chompFields n r with
      | none => none
      | some (fs, rest) => some (f :: fs, rest)

/-- Rebuild a character list from comma-free fields and a tail: each field is
emitted followed by the comma that the matching `[^,]*,` unit consumed. -/
def joinFields (fs : List (List Char)) (r : List Char) : List Char :=
  fs.foldr (fun f acc => f ++ ',' :: acc) r

/-- Consume an exact literal character sequence from the front of a list,
returning the remainder, or `none` when the list does not start with it. -/
def dropLiteral : List Char → List Char → Option (List Char)
  | [], l => some l
  | _ :: _, [] => none
  | c :: cs, d :: ds => if c = d then dropLiteral cs ds else none

/-- Embedding of the compiled regular expression

`Dialogue: [^,]*,([^,]*),([^,]*),([^,]*,[^,]*,[^,]*,[^,]*,[^,]*,[^,]*,)(.*)`

as applied by `re.match` (anchored at the start of the line, not at its end).
The pattern consumes the literal `Dialogue: ` (with the space), then nine
comma-terminated comma-free fields, and `(.*)` takes the whole remainder
(lines are modelled without their trailing newline, so the newline
restriction of `.` is vacuous).  Group 1 is field 1 (start time), group 2 is
field 2 (end time), group 3 is the six metadata fields 3-8 each with its
trailing comma, group 4 is the text.  `chompFields 9` only ever returns lists
of exactly nine fields, so the final catch-all arm is unreachable. -/
def dialogue_pattern (line : List Char) :
    Option (List Char × List Char × List Char × List Char) :=
  match dropLiteral markerSpace line with
  | none => none
  | some rest =>
    match chompFields 9 rest with
    | none => none
    | some (_f0 :: st :: en :: ms, txt) => some (st, en, joinFields ms [], txt)
    | some _ => none

/-- Characters removed by Python `str.strip()` at the edges of the dialogue
text: exactly the 29 code points for which `str.isspace()` is true (CPython's
`Py_UNICODE_ISSPACE` table) — the ASCII whitespace U+0009-U+000D, the
separator controls U+001C-U+001F, the space U+0020, and the non-ASCII
whitespace U+0085, U+00A0, U+1680, U+2000-U+200A, U+2028, U+2029, U+202F,
U+205F and U+3000.  All of these except U+000A can occur inside a line
reaching `text.strip()` (text-mode iteration splits lines at U+000A only). -/
def isPySpace (c : Char) : Bool :=
  (decide (0x09 ≤ c.toNat) && decide (c.toNat ≤ 0x0d))
  || (decide (0x1c ≤ c.toNat) && decide (c.toNat ≤ 0x20))
  || (c.toNat == 0x85) || (c.toNat == 0xa0) || (c.toNat == 0x1680)
  || (decide (0x2000 ≤ c.toNat) && decide (c.toNat ≤ 0x200a))
  || (c.toNat == 0x2028) || (c.toNat == 0x2029) || (c.toNat == 0x202f)
  || (c.toNat == 0x205f) || (c.toNat == 0x3000)

/-- Embedding of Python `str.strip()`: drop leading and trailing whitespace. -/
def pyStrip (l : List Char) : List Char :=
  ((l.dropWhile isPySpace).reverse.dropWhile isPySpace).reverse

/-- Embedding of `parse_time`, which the source defines as the identity on the
timestamp string (it is dead code: `parse_ass_file` never calls it). -/
def parse_time (time_str : List Char) : List Char := time_str

/-- One extracted dialogue event: the dictionary
`{"start_time": ..., "end_time": ..., "dialog": ...}` built in `parse_ass_file`. -/
structure DialogueRecord where
  start_time : List Char
  end_time : List Char
  dialog : List Char
deriving DecidableEq, Repr

/-- Body of the `for line in file` loop of `parse_ass_file`: the record appended
for `line`, or `none` when the line is skipped.  A line is processed only when
`line.startswith('Dialogue:')` holds and the regular expression matches; the
stored dialog text is the fourth group stripped of surrounding whitespace. -/
def processLine (line : List Char) : Option DialogueRecord :=
  if pyStartswith line markerNoSpace = true then
    match dialogue_pattern line with
    | some (start_time, end_time, _, text) =>
      some { start_time := start_time, end_time := end_time, dialog := pyStrip text }
    | none => none
  else none

/-- The accumulator loop of `parse_ass_file`: `dialogues` starts empty and each
matching line appends one record at the end. -/
def parseLoop (dialogues : List DialogueRecord) : List (List Char) → List DialogueRecord
  | [] => dialogues
  | line :: rest =>
    match processLine line with
    | some d => parseLoop (dialogues ++ [d]) rest
    | none => parseLoop dialogues rest

/-- Embedding of `parse_ass_file`, applied to the file's list of lines. -/
def parse_ass_file (lines : List (List Char)) : List DialogueRecord :=
  parseLoop [] lines

/-- Split a character list at every occurrence of `sep`, in the manner of
Python `str.split(sep)`: the result is never empty, and splitting a list with
`k` separators yields `k + 1` comma-free pieces. -/
def splitOnChar (sep : Char) : List Char → List (List Char)
  | [] => [[]]
  | c :: cs =>
    if c = sep then [] :: splitOnChar sep cs
    else
      match splitOnChar sep cs with
      | [] => [[c]]
      | f :: fs => (c :: f) :: fs

/-- Split at commas: the positional-field reading of a dialogue line used by
the specification (field 0 = layer, field 1 = start, field 2 = end, ...). -/
def splitComma : List Char → List (List Char) :=
  splitOnChar ','

/-- Rejoin comma-separated pieces, inverse of `splitComma`. -/
def joinComma : List (List Char) → List Char
  | [] => []
  | [f] => f
  | f :: fs => f ++ ',' :: joinComma fs

/-- Remainder of a character list after its `n`-th comma, or `none` when it has
fewer than `n` commas. -/
def dropThroughCommas : Nat → List Char → Option (List Char)
  | 0, l => some l
  | n + 1, l =>
    match chompField l with
    | none => none
    | some (_, r) => dropThroughCommas n r

/-- Lower-case hexadecimal digit, as used by the `\u00XX` escapes of the JSON
encoder. -/
def hexDigit (n : Nat) : Char :=
  if n < 10 then Char.ofNat (48 + n) else Char.ofNat (87 + n)

/-- Escaping of one character by `json.dump` with `ensure_ascii=False`: only the
quote, the backslash and the control characters below `0x20` are escaped (the
five named ones by their short escapes, the rest as `\u00XX`); every other
character, ASCII or not, is written literally. -/
def escapeChar (c : Char) : List Char :=
  if c = '"' then ['\\', '"']
  else if c = '\\' then ['\\', '\\']
  else if c = '\x08' then ['\\', 'b']
  else if c = '\x0c' then ['\\', 'f']
  else if c = '\n' then ['\\', 'n']
  else if c = '\r' then ['\\', 'r']
  else if c = '\t' then ['\\', 't']
  else if c.toNat < 32 then ['\\', 'u', '0', '0', hexDigit (c.toNat / 16), hexDigit (c.toNat % 16)]
  else [c]

/-- JSON string literal for a character list: surrounding quotes around the
escaped characters. -/
def encodeString (s : List Char) : List Char :=
  '"' :: ((s.map escapeChar).flatten ++ ['"'])

/-- JSON object emitted by `json.dump(..., indent=2)` for one dialogue record at
nesting depth one: the three keys in their insertion order `start_time`,
`end_time`, `dialog`, each on its own line indented four spaces, the closing
brace indented two. -/
def encodeRecord (r : DialogueRecord) : List Char :=
  "\x7b\n    \"start_time\": ".toList ++ encodeString r.start_time ++
    ",\n    \"end_time\": ".toList ++ encodeString r.end_time ++
    ",\n    \"dialog\": ".toList ++ encodeString r.dialog ++
    "\n  \x7d".toList

/-- Iterative body of the JSON array encoder: the items in order, separated by a
comma, a newline and the depth-one indent. -/
def dumpItems : List DialogueRecord → List Char
  | [] => []
  | [r] => encodeRecord r
  | r :: rs => encodeRecord r ++ ",\n  ".toList ++ dumpItems rs

/-- Embedding of `write_json`'s serialization
`json.dump(dialogues, file, ensure_ascii=False, indent=2)`: the character
content written to the output file. -/
def write_json : List DialogueRecord → List Char
  | [] => "[]".toList
  | r :: rs => "[\n  ".toList ++ dumpItems (r :: rs) ++ "\n]".toList

/-- Embedding of Python `str.lower()` on the characters compared against the
literal `'.ass'`; only ASCII letters are relevant to that comparison and they
are modelled exactly. -/
def pyLower (s : List Char) : List Char :=
  s.map Char.toLower

/-- Final path component, in the manner of `pathlib.PurePath.name` for POSIX
paths: the last slash-separated component, with empty and `.` components
dropped (drive/root subtleties of non-POSIX paths are out of scope). -/
def pathName (p : List Char) : List Char :=
  (((splitOnChar '/' p).filter fun q => decide (q ≠ [] ∧ q ≠ ['.'])).getLast?).getD []

/-- Index of the last `.` in a character list, if any. -/
def lastDotIdx (l : List Char) : Option Nat :=
  (l.reverse.findIdx? fun c => c == '.').map fun j => l.length - 1 - j

/-- Embedding of `pathlib.PurePath.suffix`: the part of the name from its last
dot onward, provided that dot is neither the first nor the last character of
the name; otherwise the empty suffix. -/
def pathSuffix (p : List Char) : List Char :=
  let nm := pathName p
  match lastDotIdx nm with
  | none => []
  | some i => if 0 < i ∧ i + 1 < nm.length then nm.drop i else []

/-- Embedding of `input_path.with_suffix('.json')` on the path string: drop the
current suffix from the end and append `.json`. -/
def withSuffixJson (p : List Char) : List Char :=
  p.take (p.length - (pathSuffix p).length) ++ ".json".toList

/-- Outcome of the body of `main`'s `try` block up to serialization: either the
parsed dialogue list, or the message of the exception that interrupted the
read, extraction or write. -/
inductive ProcOutcome where
  | ok : List DialogueRecord → ProcOutcome
  | err : List Char → ProcOutcome
deriving DecidableEq, Repr

/-- Observable result of one `main` invocation: the lines printed to standard
output in order, and (when the conversion ran to completion) the output path
with the character content written there.  `outputWritten = none` in the two
validation branches records that they return before the `try` block, so
`write_json` is never invoked; in the exception branch it records that no
completed conversion output is produced. -/
structure CliResult where
  printed : List (List Char)
  outputWritten : Option (List Char × List Char)
deriving DecidableEq, Repr

/-- Message `f"Error: Input file '{input_path}' not found."`. -/
def msgNotFound (p : List Char) : List Char :=
  "Error: Input file \x27".toList ++ p ++ "\x27 not found.".toList

/-- Message `"Error: Input file must be an ASS file"`. -/
def msgBadExt : List Char :=
  "Error: Input file must be an ASS file".toList

/-- Message `f"An error occurred: {str(e)}"`. -/
def msgError (e : List Char) : List Char :=
  "An error occurred: ".toList ++ e

/-- Message `f"Successfully converted '{input_path}' to '{output_path}'"`. -/
def msgSuccess (inp outp : List Char) : List Char :=
  "Successfully converted \x27".toList ++ inp ++ "\x27 to \x27".toList ++ outp ++ "\x27".toList

/-- Message `f"Extracted {len(dialogues)} dialogue lines"`. -/
def msgCount (n : Nat) : List Char :=
  "Extracted ".toList ++ (Nat.repr n).toList ++ " dialogue lines".toList

namespace Cli

/-- Embedding of `main` after argument parsing.  `inputPath` is the positional
argument, `outputArg` the optional `-o` value, `inputExists` the result of
`input_path.exists()`, and `proc` the outcome of the `try` block's read and
extraction steps (str() normalization of the printed Path objects is not
modelled; the raw argument text is used).  The function is total: every
branch, the exception branch included, returns a printed message. -/
def main (inputPath : List Char) (outputArg : Option (List Char))
    (inputExists : Bool) (proc : ProcOutcome) : CliResult :=
  if inputExists = false then
    { printed := [msgNotFound inputPath], outputWritten := none }
  else if pyLower (pathSuffix inputPath) ≠ ".ass".toList then
    { printed := [msgBadExt], outputWritten := none }
  else
    let outputPath := match outputArg with
      | some o => o
      | none => withSuffixJson inputPath
    match proc with
    | ProcOutcome.ok ds =>
      { printed := [msgSuccess inputPath outputPath, msgCount ds.length],
        outputWritten := some (outputPath, write_json ds) }
    | ProcOutcome.err e =>
      { printed := [msgError e], outputWritten := none }

end Cli


/-- Consuming a literal succeeds exactly on lists that extend it. -/
lemma dropLiteral_sound : ∀ p l r : List Char, dropLiteral p l = some r → l = p ++ r := by
  intro p
  induction p with
  | nil =>
    intro l r h
    simp [dropLiteral] at h
    simp [h]
  | cons c cs ih =>
    intro l r h
    cases l with
    | nil => simp [dropLiteral] at h
    | cons d ds =>
      by_cases hcd : c = d
      · subst hcd
        simp [dropLiteral] at h
        simp [ih ds r h]
      · simp [dropLiteral, hcd] at h

/-- Consuming a literal from a list that starts with it returns the remainder. -/
lemma dropLiteral_self : ∀ p r : List Char, dropLiteral p (p ++ r) = some r := by
  intro p
  induction p with
  | nil => intro r; rfl
  | cons c cs ih => intro r; simp [dropLiteral, ih]

/-- A line that starts with `Dialogue: ` also starts with `Dialogue:`. -/
lemma pyStartswith_markerSpace (r : List Char) :
    pyStartswith (markerSpace ++ r) markerNoSpace = true := rfl

/-- Soundness of one `[^,]*,` unit: it slices the input at its first comma, and
the consumed field is comma-free. -/
lemma chompField_sound : ∀ l f r : List Char, chompField l = some (f, r) →
    l = f ++ ',' :: r ∧ f.count ',' = 0 := by
  intro l
  induction l with
  | nil => intro f r h; simp [chompField] at h
  | cons c cs ih =>
    intro f r h
    by_cases hc : c = ','
    · subst hc
      simp [chompField] at h
      obtain ⟨hf, hr⟩ := h
      subst hf
      subst hr
      simp
    · simp only [chompField, if_neg hc] at h
      cases hcf : chompField cs with
      | none => rw [hcf] at h; exact absurd h (by simp)
      | some p =>
        obtain ⟨f', r'⟩ := p
        rw [hcf] at h
        simp only [Option.some.injEq, Prod.mk.injEq] at h
        obtain ⟨hf, hr⟩ := h
        obtain ⟨h1, h2⟩ := ih f' r' hcf
        subst hf
        subst hr
        refine ⟨by simp [h1], ?_⟩
        simp [List.count_cons, h2, hc]

/-- Completeness of one `[^,]*,` unit: a comma-free field followed by a comma is
consumed exactly. -/
lemma chompField_complete : ∀ f r : List Char, f.count ',' = 0 →
    chompField (f ++ ',' :: r) = some (f, r) := by
  intro f
  induction f with
  | nil => intro r _; simp [chompField]
  | cons c f' ih =>
    intro r h
    have hc : c ≠ ',' := by
      intro e
      subst e
      simp [List.count_cons] at h
    have h' : f'.count ',' = 0 := by
      simp [List.count_cons, hc] at h
      exact h
    simp [chompField, hc, ih r h']

/-- Soundness of `chompFields`: it returns exactly `n` comma-free fields whose
comma-separated concatenation with the remainder rebuilds the input. -/
lemma chompFields_sound : ∀ (n : Nat) (l : List Char) (fs : List (List Char)) (r : List Char),
    chompFields n l = some (fs, r) →
    fs.length = n ∧ l = joinFields fs r ∧ ∀ f ∈ fs, f.count ',' = 0 := by
  intro n
  induction n with
  | zero =>
    intro l fs r h
    simp [chompFields] at h
    obtain ⟨hfs, hr⟩ := h
    subst hfs
    subst hr
    simp [joinFields]
  | succ n ih =>
    intro l fs r h
    cases hcf : chompField l with
    | none => simp [chompFields, hcf] at h
    | some p =>
      obtain ⟨f, r₁⟩ := p
      cases hcs : chompFields n r₁ with
      | none => simp [chompFields, hcf, hcs] at h
      | some q =>
        obtain ⟨fs₁, rest⟩ := q
        simp only [chompFields, hcf, hcs, Option.some.injEq, Prod.mk.injEq] at h
        obtain ⟨hfs, hr⟩ := h
        subst hfs
        subst hr
        obtain ⟨hl1, hl2⟩ := chompField_sound l f r₁ hcf
        obtain ⟨ih1, ih2, ih3⟩ := ih r₁ fs₁ rest hcs
        refine ⟨by simp [ih1], ?_, ?_⟩
        · rw [hl1, ih2]
          simp [joinFields]
        · intro g hg
          rcases List.mem_cons.mp hg with rfl | hg'
          · exact hl2
          · exact ih3 g hg'

/-- Completeness of `chompFields`: comma-free fields joined with their commas in
front of any tail are consumed exactly. -/
lemma chompFields_complete : ∀ (fs : List (List Char)) (r : List Char),
    (∀ f ∈ fs, f.count ',' = 0) →
    chompFields fs.length (joinFields fs r) = some (fs, r) := by
  intro fs
  induction fs with
  | nil => intro r _; simp [chompFields, joinFields]
  | cons f fs' ih =>
    intro r h
    have hf : f.count ',' = 0 := h f (List.mem_cons_self f fs')
    have h' : ∀ g ∈ fs', g.count ',' = 0 := fun g hg => h g (List.mem_cons_of_mem f hg)
    have hstep : joinFields (f :: fs') r = f ++ ',' :: joinFields fs' r := rfl
    rw [List.length_cons, hstep]
    simp only [chompFields, chompField_complete f (joinFields fs' r) hf, ih r h']

/-- The remainder returned by `chompFields n` is the remainder after the `n`-th
comma. -/
lemma chompFields_dropThroughCommas :
    ∀ (n : Nat) (l : List Char) (fs : List (List Char)) (r : List Char),
    chompFields n l = some (fs, r) → dropThroughCommas n l = some r := by
  intro n
  induction n with
  | zero =>
    intro l fs r h
    simp [chompFields] at h
    simp [dropThroughCommas, h.2]
  | succ n ih =>
    intro l fs r h
    cases hcf : chompField l with
    | none => simp [chompFields, hcf] at h
    | some p =>
      obtain ⟨f, r₁⟩ := p
      cases hcs : chompFields n r₁ with
      | none => simp [chompFields, hcf, hcs] at h
      | some q =>
        obtain ⟨fs₁, rest⟩ := q
        simp only [chompFields, hcf, hcs, Option.some.injEq, Prod.mk.injEq] at h
        simp only [dropThroughCommas, hcf]
        rw [← h.2]
        exact ih r₁ fs₁ rest hcs

/-- Splitting never yields the empty list of pieces. -/
lemma splitComma_ne_nil : ∀ l : List Char, splitComma l ≠ [] := by
  intro l
  induction l with
  | nil => simp [splitComma, splitOnChar]
  | cons c cs ih =>
    by_cases hc : c = ','
    · simp [splitComma, splitOnChar, hc]
    · cases h : splitComma cs with
      | nil => exact absurd h ih
      | cons f fs =>
        have h' : splitOnChar ',' cs = f :: fs := h
        simp [splitComma, splitOnChar, hc, h']

/-- Splitting a list that starts with a comma peels off one empty piece. -/
lemma splitComma_cons_comma (cs : List Char) :
    splitComma (',' :: cs) = [] :: splitComma cs := by
  simp [splitComma, splitOnChar]

/-- Splitting a list that starts with a non-comma prepends it to the first piece. -/
lemma splitComma_cons_of_ne (c : Char) (cs f : List Char) (fs : List (List Char))
    (h : c ≠ ',') (hcs : splitComma cs = f :: fs) :
    splitComma (c :: cs) = (c :: f) :: fs := by
  have h' : splitOnChar ',' cs = f :: fs := hcs
  simp [splitComma, splitOnChar, h, h']

/-- Appending a nonempty tail of pieces puts a comma after the head piece. -/
lemma joinComma_cons_of_ne_nil (f : List Char) (fs : List (List Char)) (h : fs ≠ []) :
    joinComma (f :: fs) = f ++ ',' :: joinComma fs := by
  cases fs with
  | nil => exact absurd rfl h
  | cons g gs => rfl

/-- Rejoining the comma-split of a list gives the list back. -/
lemma joinComma_splitComma : ∀ l : List Char, joinComma (splitComma l) = l := by
  intro l
  induction l with
  | nil => rfl
  | cons c cs ih =>
    by_cases hc : c = ','
    · subst hc
      rw [splitComma_cons_comma]
      cases h : splitComma cs with
      | nil => exact absurd h (splitComma_ne_nil cs)
      | cons f fs =>
        rw [← h, joinComma_cons_of_ne_nil [] (splitComma cs) (splitComma_ne_nil cs)]
        simp [ih]
    · cases h : splitComma cs with
      | nil => exact absurd h (splitComma_ne_nil cs)
      | cons f fs =>
        rw [splitComma_cons_of_ne c cs f fs hc h]
        have hcs : joinComma (f :: fs) = cs := by rw [← h]; exact ih
        cases fs with
        | nil =>
          simp only [joinComma] at hcs
          simp [joinComma, hcs]
        | cons g gs =>
          rw [joinComma_cons_of_ne_nil (c :: f) (g :: gs) (by simp)]
          rw [joinComma_cons_of_ne_nil f (g :: gs) (by simp)] at hcs
          simp [← hcs]

/-- Every piece of a comma-split is comma-free. -/
lemma splitComma_count : ∀ (l f : List Char), f ∈ splitComma l → f.count ',' = 0 := by
  intro l
  induction l with
  | nil =>
    intro f hf
    simp [splitComma, splitOnChar] at hf
    simp [hf]
  | cons c cs ih =>
    intro f hf
    by_cases hc : c = ','
    · subst hc
      rw [splitComma_cons_comma] at hf
      rcases List.mem_cons.mp hf with rfl | hf'
      · simp
      · exact ih f hf'
    · cases h : splitComma cs with
      | nil => exact absurd h (splitComma_ne_nil cs)
      | cons g gs =>
        rw [splitComma_cons_of_ne c cs g gs hc h] at hf
        rcases List.mem_cons.mp hf with rfl | hf'
        · have hg : g.count ',' = 0 := ih g (by rw [h]; exact List.mem_cons_self g gs)
          simp [List.count_cons, hc, hg]
        · exact ih f (by rw [h]; exact List.mem_cons_of_mem g hf')

/-- A list with `k` commas splits into `k + 1` pieces. -/
lemma splitComma_length : ∀ l : List Char, (splitComma l).length = l.count ',' + 1 := by
  intro l
  induction l with
  | nil => simp [splitComma, splitOnChar]
  | cons c cs ih =>
    by_cases hc : c = ','
    · subst hc
      rw [splitComma_cons_comma]
      simp [List.count_cons, ih]
    · cases h : splitComma cs with
      | nil => exact absurd h (splitComma_ne_nil cs)
      | cons f fs =>
        rw [splitComma_cons_of_ne c cs f fs hc h]
        have := ih
        rw [h] at this
        simp only [List.length_cons] at this ⊢
        simp [List.count_cons, hc]
        omega

/-- Unfolding lemma for `joinFields` on the empty field list. -/
lemma joinFields_nil (r : List Char) : joinFields [] r = r := rfl

/-- Unfolding lemma for `joinFields` on a field cons. -/
lemma joinFields_cons (f : List Char) (fs : List (List Char)) (r : List Char) :
    joinFields (f :: fs) r = f ++ ',' :: joinFields fs r := rfl

/-- The tail of a `joinFields` can be split off as a plain append. -/
lemma joinFields_eq_append : ∀ (fs : List (List Char)) (r : List Char),
    joinFields fs r = joinFields fs [] ++ r := by
  intro fs
  induction fs with
  | nil => intro r; rfl
  | cons f fs' ih =>
    intro r
    rw [joinFields_cons, joinFields_cons, ih r]
    simp

/-- Joining fields in front of a rejoined nonempty piece list is rejoining the
concatenated piece list. -/
lemma joinFields_joinComma : ∀ (fs gs : List (List Char)), gs ≠ [] →
    joinFields fs (joinComma gs) = joinComma (fs ++ gs) := by
  intro fs
  induction fs with
  | nil => intro gs _; rfl
  | cons f fs' ih =>
    intro gs h
    rw [List.cons_append,
      joinComma_cons_of_ne_nil f (fs' ++ gs) (by simp [h]),
      joinFields_cons, ih gs h]

/-- Every element kept by `takeWhile` satisfies the predicate. -/
lemma all_takeWhile (p : Char → Bool) (l : List Char) : (l.takeWhile p).all p = true := by
  rw [List.all_eq_true]
  intro x hx
  exact List.mem_takeWhile_imp hx

/-- Stripping only removes whitespace from the two ends: the input is the
stripped text surrounded by all-whitespace margins. -/
lemma pyStrip_decomp (l : List Char) :
    ∃ a b, l = a ++ pyStrip l ++ b ∧ a.all isPySpace = true ∧ b.all isPySpace = true := by
  refine ⟨l.takeWhile isPySpace, ((l.dropWhile isPySpace).reverse.takeWhile isPySpace).reverse,
    ?_, all_takeWhile isPySpace l, by rw [List.all_reverse]; exact all_takeWhile isPySpace _⟩
  conv_lhs => rw [← List.takeWhile_append_dropWhile isPySpace l]
  rw [List.append_assoc]
  congr 1
  conv_lhs => rw [← List.reverse_reverse (l.dropWhile isPySpace),
    ← List.takeWhile_append_dropWhile isPySpace (l.dropWhile isPySpace).reverse]
  rw [List.reverse_append]
  rfl

/-- All-whitespace margins contain no comma. -/
lemma count_comma_of_space (a : List Char) (h : a.all isPySpace = true) : a.count ',' = 0 := by
  rw [List.count_eq_zero]
  intro hm
  rw [List.all_eq_true] at h
  exact absurd (h _ hm) (by decide)

/-- Stripping preserves every comma of the text. -/
lemma pyStrip_count_comma (l : List Char) : (pyStrip l).count ',' = l.count ',' := by
  obtain ⟨a, b, hl, ha, hb⟩ := pyStrip_decomp l
  conv_rhs => rw [hl]
  simp [List.count_append, count_comma_of_space a ha, count_comma_of_space b hb]

/-- The accumulator loop appends, in input order, exactly the records of the
lines that are processed. -/
lemma parseLoop_eq : ∀ (ls : List (List Char)) (acc : List DialogueRecord),
    parseLoop acc ls = acc ++ ls.filterMap processLine := by
  intro ls
  induction ls with
  | nil => intro acc; simp [parseLoop]
  | cons l t ih =>
    intro acc
    cases h : processLine l with
    | none => simp [parseLoop, h, ih]
    | some d => simp [parseLoop, h, ih]

/-- The whole extraction is the `filterMap` of the per-line step. -/
lemma parse_ass_file_eq (ls : List (List Char)) :
    parse_ass_file ls = ls.filterMap processLine := by
  simp [parse_ass_file, parseLoop_eq]

/-- Extraction distributes over concatenation of line blocks. -/
lemma parse_ass_file_append (ls1 ls2 : List (List Char)) :
    parse_ass_file (ls1 ++ ls2) = parse_ass_file ls1 ++ parse_ass_file ls2 := by
  simp [parse_ass_file_eq, List.filterMap_append]

/-- Introduction form for the pattern: nine consumed fields determine the match
and its four groups. -/
lemma dialogue_pattern_intro (rest f0 st en : List Char) (ms : List (List Char))
    (txt : List Char) (h : chompFields 9 rest = some (f0 :: st :: en :: ms, txt)) :
    dialogue_pattern (markerSpace ++ rest) = some (st, en, joinFields ms [], txt) := by
  unfold dialogue_pattern
  rw [dropLiteral_self]
  simp [h]

/-- Inversion of a successful pattern match: the line extends the marker and the
remainder decomposes into nine consumed fields. -/
lemma dialogue_pattern_inv (line st en meta txt : List Char)
    (h : dialogue_pattern line = some (st, en, meta, txt)) :
    ∃ rest f0 ms, dropLiteral markerSpace line = some rest ∧
      chompFields 9 rest = some (f0 :: st :: en :: ms, txt) ∧ meta = joinFields ms [] := by
  cases hd : dropLiteral markerSpace line with
  | none => simp [dialogue_pattern, hd] at h
  | some rest =>
    cases hc : chompFields 9 rest with
    | none => simp [dialogue_pattern, hd, hc] at h
    | some p =>
      obtain ⟨fs, txt'⟩ := p
      rcases fs with _ | ⟨f0, _ | ⟨st', _ | ⟨en', ms⟩⟩⟩
      · simp [dialogue_pattern, hd, hc] at h
      · simp [dialogue_pattern, hd, hc] at h
      · simp [dialogue_pattern, hd, hc] at h
      · simp only [dialogue_pattern, hd, hc, Option.some.injEq, Prod.mk.injEq] at h
        obtain ⟨h1, h2, h3, h4⟩ := h
        subst h1
        subst h2
        subst h3
        subst h4
        exact ⟨rest, f0, ms, rfl, hc, rfl⟩

/-- A successful pattern match determines the processed record. -/
lemma processLine_of_pattern (line st en meta txt : List Char)
    (h : dialogue_pattern line = some (st, en, meta, txt)) :
    processLine line = some { start_time := st, end_time := en, dialog := pyStrip txt } := by
  have hsw : pyStartswith line markerNoSpace = true := by
    obtain ⟨rest, f0, ms, hd, _, _⟩ := dialogue_pattern_inv line st en meta txt h
    rw [dropLiteral_sound markerSpace line rest hd]
    exact pyStartswith_markerSpace rest
  simp [processLine, hsw, h]

/-- Inversion of the per-line step: a produced record comes from a pattern
match, with the text stripped. -/
lemma processLine_inv (line : List Char) (r : DialogueRecord)
    (h : processLine line = some r) :
    ∃ st en meta txt, dialogue_pattern line = some (st, en, meta, txt) ∧
      r = { start_time := st, end_time := en, dialog := pyStrip txt } := by
  unfold processLine at h
  by_cases hsw : pyStartswith line markerNoSpace = true
  · rw [if_pos hsw] at h
    cases hp : dialogue_pattern line with
    | none => rw [hp] at h; exact absurd h (by simp)
    | some p =>
      obtain ⟨st, en, meta, txt⟩ := p
      rw [hp] at h
      simp only [Option.some.injEq] at h
      exact ⟨st, en, meta, txt, rfl, h.symm⟩
  · rw [if_neg hsw] at h
    exact absurd h (by simp)

/-- Lines that do not start with the marker are skipped. -/
lemma processLine_none_of_no_marker (line : List Char)
    (h : pyStartswith line markerNoSpace = false) : processLine line = none := by
  simp [processLine, h]

/-- Lines on which the pattern fails are skipped. -/
lemma processLine_none_of_pattern_none (line : List Char)
    (h : dialogue_pattern line = none) : processLine line = none := by
  simp [processLine, h]

/-- A line produces a record exactly when the pattern matches it. -/
lemma processLine_isSome_eq (line : List Char) :
    (processLine line).isSome = (dialogue_pattern line).isSome := by
  cases hp : dialogue_pattern line with
  | none => simp [processLine_none_of_pattern_none line hp]
  | some p =>
    obtain ⟨st, en, meta, txt⟩ := p
    simp [processLine_of_pattern line st en meta txt hp]

/-- C1 (counterexample).  The claim is false on two counts at concrete inputs.
First, the line `Dialogue:0,1,2,3,4,5,6,7,8,9` begins with the literal marker
`Dialogue:` and its remainder after that prefix contains 9 commas, yet the
extractor emits no record for it: the extraction pattern additionally demands
a space after the colon.  Second, for the matched line
`Dialogue: 0,a,b,c,d,e,f,g,h, x ` the remainder after the 9th comma is
` x ` while the emitted record's dialogue text is the stripped `x`, so the
record does not take the raw remainder as its text. -/
theorem c1_marker_counterexample :
    (pyStartswith ("Dialogue:0,1,2,3,4,5,6,7,8,9".toList) markerNoSpace = true
      ∧ 9 ≤ (("Dialogue:0,1,2,3,4,5,6,7,8,9".toList).drop 9).count ','
      ∧ parse_ass_file ["Dialogue:0,1,2,3,4,5,6,7,8,9".toList] = [])
    ∧ (parse_ass_file ["Dialogue: 0,a,b,c,d,e,f,g,h, x ".toList] =
          [{ start_time := "a".toList, end_time := "b".toList, dialog := "x".toList }]
        ∧ dropThroughCommas 9 (("Dialogue: 0,a,b,c,d,e,f,g,h, x ".toList).drop 10) =
            some (" x ".toList)
        ∧ "x".toList ≠ " x ".toList) := by
  refine ⟨⟨by decide, by decide, by decide⟩, by decide, by decide, by decide⟩

/-- C1 (amended).  For every input line that begins with the literal marker
`Dialogue: ` — the marker including the space that the extraction pattern
requires after the colon — and whose remainder after that 10-character prefix
contains at least 9 commas (field 0 = layer, field 1 = start time, field 2 =
end time, fields 3-8 = metadata, field 9+ = text), the extractor emits
exactly one record for it, taking field 1 as start_time, field 2 as
end_time, and the remainder after the 9th comma, trimmed of surrounding
whitespace, as the dialogue text. -/
theorem c1_field_extraction (ls1 ls2 : List (List Char)) (rest : List Char)
    (h : 9 ≤ rest.count ',') :
    parse_ass_file (ls1 ++ (markerSpace ++ rest) :: ls2) =
      parse_ass_file ls1 ++
        { start_time := (splitComma rest).getD 1 [],
          end_time := (splitComma rest).getD 2 [],
          dialog := pyStrip (joinComma ((splitComma rest).drop 9)) } ::
        parse_ass_file ls2 := by
  have hlen : 10 ≤ (splitComma rest).length := by
    rw [splitComma_length]
    omega
  have hne : (splitComma rest).drop 9 ≠ [] := by
    intro h0
    have := List.length_drop 9 (splitComma rest)
    rw [h0] at this
    simp at this
    omega
  have htake : ((splitComma rest).take 9).length = 9 := by
    rw [List.length_take]
    omega
  have hmem : ∀ f ∈ (splitComma rest).take 9, f.count ',' = 0 :=
    fun f hf => splitComma_count rest f (List.take_subset 9 (splitComma rest) hf)
  have hjoin : joinFields ((splitComma rest).take 9)
      (joinComma ((splitComma rest).drop 9)) = rest := by
    rw [joinFields_joinComma _ _ hne, List.take_append_drop]
    exact joinComma_splitComma rest
  have hch : chompFields 9 rest =
      some ((splitComma rest).take 9, joinComma ((splitComma rest).drop 9)) := by
    have := chompFields_complete ((splitComma rest).take 9)
      (joinComma ((splitComma rest).drop 9)) hmem
    rw [htake, hjoin] at this
    exact this
  rcases hsc : splitComma rest with _ | ⟨a0, _ | ⟨a1, _ | ⟨a2, t⟩⟩⟩
  · rw [hsc] at hlen; simp at hlen
  · rw [hsc] at hlen; simp at hlen
  · rw [hsc] at hlen
    simp only [List.length_cons, List.length_nil] at hlen
    omega
  · rw [hsc] at hch
    simp only [List.take_succ_cons, List.drop_succ_cons] at hch
    have hdp := dialogue_pattern_intro rest a0 a1 a2 (t.take 6) (joinComma (t.drop 6))
      (by rw [hch])
    have hproc := processLine_of_pattern (markerSpace ++ rest) a1 a2 _ _ hdp
    rw [parse_ass_file_eq, parse_ass_file_eq, parse_ass_file_eq,
      List.filterMap_append, List.filterMap_cons_some hproc]
    simp [hsc]

/-- C1 (witness for the amended claim). -/
theorem c1_field_extraction_witness :
    9 ≤ ("0,0:00:01.00,0:00:02.00,Default,,0,0,0,,So, it works".toList).count ','
    ∧ parse_ass_file ([] ++
        (markerSpace ++ "0,0:00:01.00,0:00:02.00,Default,,0,0,0,,So, it works".toList) :: []) =
      parse_ass_file [] ++
        { start_time := (splitComma ("0,0:00:01.00,0:00:02.00,Default,,0,0,0,,So, it works".toList)).getD 1 [],
          end_time := (splitComma ("0,0:00:01.00,0:00:02.00,Default,,0,0,0,,So, it works".toList)).getD 2 [],
          dialog := pyStrip (joinComma
            ((splitComma ("0,0:00:01.00,0:00:02.00,Default,,0,0,0,,So, it works".toList)).drop 9)) } ::
        parse_ass_file [] :=
  ⟨by decide, c1_field_extraction [] [] _ (by decide)⟩

/-- C2.  For the well-formed input line
`Dialogue: 0,0:00:01.00,0:00:02.00,Default,,0,0,0,,Hi there` the extractor
produces exactly the record with start_time `0:00:01.00`, end_time
`0:00:02.00`, and dialog `Hi there`. -/
theorem c2_field_mapping :
    parse_ass_file ["Dialogue: 0,0:00:01.00,0:00:02.00,Default,,0,0,0,,Hi there".toList] =
      [{ start_time := "0:00:01.00".toList, end_time := "0:00:02.00".toList,
         dialog := "Hi there".toList }] := by
  decide

/-- C4.  A line that starts with `Dialogue:` but on which the extraction
pattern fails produces no record and no error (the per-line step is a total
function returning `none`), and extraction of the surrounding lines is
unaffected: the output for any input containing such a line is the
concatenation of the outputs for the lines before and after it. -/
theorem c4_malformed_skip (ls1 ls2 : List (List Char)) (line : List Char)
    (_h1 : pyStartswith line markerNoSpace = true)
    (h2 : dialogue_pattern line = none) :
    processLine line = none
    ∧ parse_ass_file (ls1 ++ line :: ls2) = parse_ass_file ls1 ++ parse_ass_file ls2 := by
  have hp : processLine line = none := processLine_none_of_pattern_none line h2
  refine ⟨hp, ?_⟩
  rw [parse_ass_file_eq, parse_ass_file_eq, parse_ass_file_eq,
    List.filterMap_append, List.filterMap_cons_none hp]

/-- C4 (witness): a short `Dialogue:` line with too few commas is dropped while
a later valid line still produces its record. -/
theorem c4_malformed_skip_witness :
    pyStartswith ("Dialogue: 0,only,two".toList) markerNoSpace = true
    ∧ dialogue_pattern ("Dialogue: 0,only,two".toList) = none
    ∧ (processLine ("Dialogue: 0,only,two".toList) = none
       ∧ parse_ass_file ([] ++ ("Dialogue: 0,only,two".toList) ::
            ["Dialogue: 0,a,b,c,d,e,f,g,h,ok".toList]) =
          parse_ass_file [] ++ parse_ass_file ["Dialogue: 0,a,b,c,d,e,f,g,h,ok".toList])
    ∧ parse_ass_file ["Dialogue: 0,a,b,c,d,e,f,g,h,ok".toList] =
        [{ start_time := "a".toList, end_time := "b".toList, dialog := "ok".toList }] :=
  ⟨by decide, by decide,
   c4_malformed_skip [] ["Dialogue: 0,a,b,c,d,e,f,g,h,ok".toList] _ (by decide) (by decide),
   by decide⟩

/-- C5.  The output list is exactly the per-line `filterMap` of the input: one
element per line matched by the extraction pattern, in input order, with no
reordering, duplication or omission; in particular its length is the number
of lines the pattern matches. -/
theorem c5_order_and_count (lines : List (List Char)) :
    parse_ass_file lines = lines.filterMap processLine
    ∧ (parse_ass_file lines).length =
        lines.countP (fun l => (dialogue_pattern l).isSome) := by
  refine ⟨parse_ass_file_eq lines, ?_⟩
  rw [parse_ass_file_eq]
  induction lines with
  | nil => rfl
  | cons l t ih =>
    cases hp : processLine l with
    | none =>
      have hd : (dialogue_pattern l).isSome = false := by
        rw [← processLine_isSome_eq]
        simp [hp]
      simp [List.filterMap_cons_none hp, List.countP_cons, hd, ih]
    | some d =>
      have hd : (dialogue_pattern l).isSome = true := by
        rw [← processLine_isSome_eq]
        simp [hp]
      simp [List.filterMap_cons_some hp, List.countP_cons, hd, ih]

/-- C7.  A line that does not start with `Dialogue:` (leading whitespace before
the marker included) produces no record and no error, and the rest of the
extraction is unaffected by its presence. -/
theorem c7_marker_filter (ls1 ls2 : List (List Char)) (line : List Char)
    (h : pyStartswith line markerNoSpace = false) :
    processLine line = none
    ∧ parse_ass_file (ls1 ++ line :: ls2) = parse_ass_file ls1 ++ parse_ass_file ls2 := by
  have hp : processLine line = none := processLine_none_of_no_marker line h
  refine ⟨hp, ?_⟩
  rw [parse_ass_file_eq, parse_ass_file_eq, parse_ass_file_eq,
    List.filterMap_append, List.filterMap_cons_none hp]

/-- C7 (witness): a line with leading whitespace before the marker is ignored. -/
theorem c7_marker_filter_witness :
    pyStartswith (" Dialogue: 0,a,b,c,d,e,f,g,h,x".toList) markerNoSpace = false
    ∧ (processLine (" Dialogue: 0,a,b,c,d,e,f,g,h,x".toList) = none
       ∧ parse_ass_file ([] ++ (" Dialogue: 0,a,b,c,d,e,f,g,h,x".toList) :: []) =
          parse_ass_file [] ++ parse_ass_file []) :=
  ⟨by decide, c7_marker_filter [] [] _ (by decide)⟩

/-- C3.  For every matched dialogue line, only the first 9 commas are
structural: the emitted record's dialog field is the single remainder after
the 9th comma (up to edge-whitespace stripping), it is never re-split, and
every comma appearing after the 9th comma is preserved in it (the comma
count of the dialog field equals that of the raw remainder). -/
theorem c3_text_not_resplit (line : List Char) (r : DialogueRecord)
    (h : processLine line = some r) :
    ∃ pre txt, line = markerSpace ++ pre
      ∧ dropThroughCommas 9 pre = some txt
      ∧ r.dialog = pyStrip txt
      ∧ r.dialog.count ',' = txt.count ',' := by
  obtain ⟨st, en, meta, txt, hp, hr⟩ := processLine_inv line r h
  obtain ⟨rest, f0, ms, hd, hc, _⟩ := dialogue_pattern_inv line st en meta txt hp
  refine ⟨rest, txt, dropLiteral_sound markerSpace line rest hd,
    chompFields_dropThroughCommas 9 rest (f0 :: st :: en :: ms) txt hc, ?_, ?_⟩
  · rw [hr]
  · rw [hr]
    exact pyStrip_count_comma txt

/-- C3 (witness): a text field with an embedded comma survives in one piece. -/
theorem c3_text_not_resplit_witness :
    processLine ("Dialogue: 0,a,b,c,d,e,f,g,h,Wait, what?".toList) =
      some { start_time := "a".toList, end_time := "b".toList,
             dialog := "Wait, what?".toList }
    ∧ ∃ pre txt, "Dialogue: 0,a,b,c,d,e,f,g,h,Wait, what?".toList = markerSpace ++ pre
        ∧ dropThroughCommas 9 pre = some txt
        ∧ ({ start_time := "a".toList, end_time := "b".toList,
             dialog := "Wait, what?".toList } : DialogueRecord).dialog = pyStrip txt
        ∧ (({ start_time := "a".toList, end_time := "b".toList,
              dialog := "Wait, what?".toList } : DialogueRecord).dialog).count ',' =
            txt.count ',' :=
  ⟨by decide, c3_text_not_resplit _ _ (by decide)⟩

/-- C6.  For every emitted record the line decomposes around the record's own
fields: start_time and end_time are the raw comma-free substrings between the
1st and 2nd and between the 2nd and 3rd comma, preserved verbatim with no
trimming, while dialog is the post-9th-comma text with leading and trailing
whitespace removed and the inner content untouched (the raw text is the
dialog surrounded by all-whitespace margins). -/
theorem c6_trim_and_verbatim (line : List Char) (r : DialogueRecord)
    (h : processLine line = some r) :
    ∃ f0 meta txt a b,
      line = markerSpace ++ f0 ++ [','] ++ r.start_time ++ [','] ++ r.end_time ++ [','] ++
        meta ++ txt
      ∧ f0.count ',' = 0 ∧ r.start_time.count ',' = 0 ∧ r.end_time.count ',' = 0
      ∧ r.dialog = pyStrip txt
      ∧ txt = a ++ r.dialog ++ b ∧ a.all isPySpace = true ∧ b.all isPySpace = true := by
  obtain ⟨st, en, meta, txt, hp, hr⟩ := processLine_inv line r h
  obtain ⟨rest, f0, ms, hd, hc, _⟩ := dialogue_pattern_inv line st en meta txt hp
  obtain ⟨_, hjoin, hmem⟩ := chompFields_sound 9 rest (f0 :: st :: en :: ms) txt hc
  obtain ⟨a, b, hab, ha, hb⟩ := pyStrip_decomp txt
  subst hr
  refine ⟨f0, joinFields ms [], txt, a, b, ?_,
    hmem f0 (by simp), hmem st (by simp), hmem en (by simp), rfl, hab, ha, hb⟩
  rw [dropLiteral_sound markerSpace line rest hd, hjoin,
    joinFields_cons, joinFields_cons, joinFields_cons, joinFields_eq_append ms txt]
  simp

/-- C6 (witness): surrounding whitespace is trimmed while an inner override tag
and inner spacing survive, and the timestamps are verbatim. -/
theorem c6_trim_and_verbatim_witness :
    processLine ("Dialogue: 0,0:00:01.00,0:00:02.00,Default,,0,0,0,,  \x7b\\i1\x7dHi there  ".toList) =
      some { start_time := "0:00:01.00".toList, end_time := "0:00:02.00".toList,
             dialog := "\x7b\\i1\x7dHi there".toList }
    ∧ ∃ f0 meta txt a b,
        "Dialogue: 0,0:00:01.00,0:00:02.00,Default,,0,0,0,,  \x7b\\i1\x7dHi there  ".toList =
          markerSpace ++ f0 ++ [','] ++
            ({ start_time := "0:00:01.00".toList, end_time := "0:00:02.00".toList,
               dialog := "\x7b\\i1\x7dHi there".toList } : DialogueRecord).start_time ++ [','] ++
            ({ start_time := "0:00:01.00".toList, end_time := "0:00:02.00".toList,
               dialog := "\x7b\\i1\x7dHi there".toList } : DialogueRecord).end_time ++ [','] ++
            meta ++ txt
        ∧ f0.count ',' = 0
        ∧ ({ start_time := "0:00:01.00".toList, end_time := "0:00:02.00".toList,
             dialog := "\x7b\\i1\x7dHi there".toList } : DialogueRecord).start_time.count ',' = 0
        ∧ ({ start_time := "0:00:01.00".toList, end_time := "0:00:02.00".toList,
             dialog := "\x7b\\i1\x7dHi there".toList } : DialogueRecord).end_time.count ',' = 0
        ∧ ({ start_time := "0:00:01.00".toList, end_time := "0:00:02.00".toList,
             dialog := "\x7b\\i1\x7dHi there".toList } : DialogueRecord).dialog = pyStrip txt
        ∧ txt = a ++ ({ start_time := "0:00:01.00".toList,
                        end_time := "0:00:02.00".toList,
                        dialog := "\x7b\\i1\x7dHi there".toList } : DialogueRecord).dialog ++ b
        ∧ a.all isPySpace = true ∧ b.all isPySpace = true :=
  ⟨by decide, c6_trim_and_verbatim _ _ (by decide)⟩

/-- C10.  A line consisting of the marker `Dialogue: ` followed by nine
comma-delimited (hence comma-free) fields each closed by its comma — so a 9th
comma with nothing after it — still yields a record, whose dialog is the
empty string; an empty text field is not malformed. -/
theorem c10_empty_text (f0 f1 f2 f3 f4 f5 f6 f7 f8 : List Char)
    (h0 : f0.count ',' = 0) (h1 : f1.count ',' = 0) (h2 : f2.count ',' = 0)
    (h3 : f3.count ',' = 0) (h4 : f4.count ',' = 0) (h5 : f5.count ',' = 0)
    (h6 : f6.count ',' = 0) (h7 : f7.count ',' = 0) (h8 : f8.count ',' = 0) :
    processLine (markerSpace ++ f0 ++ [','] ++ f1 ++ [','] ++ f2 ++ [','] ++ f3 ++ [','] ++ f4
        ++ [','] ++ f5 ++ [','] ++ f6 ++ [','] ++ f7 ++ [','] ++ f8 ++ [',']) =
      some { start_time := f1, end_time := f2, dialog := [] } := by
  have hmem : ∀ f ∈ [f0, f1, f2, f3, f4, f5, f6, f7, f8], f.count ',' = 0 := by
    intro f hf
    simp only [List.mem_cons, List.not_mem_nil, or_false] at hf
    rcases hf with rfl | rfl | rfl | rfl | rfl | rfl | rfl | rfl | rfl <;> assumption
  have hch : chompFields 9 (joinFields [f0, f1, f2, f3, f4, f5, f6, f7, f8] []) =
      some ([f0, f1, f2, f3, f4, f5, f6, f7, f8], []) := by
    simpa using chompFields_complete [f0, f1, f2, f3, f4, f5, f6, f7, f8] [] hmem
  have hdp := dialogue_pattern_intro (joinFields [f0, f1, f2, f3, f4, f5, f6, f7, f8] [])
    f0 f1 f2 [f3, f4, f5, f6, f7, f8] [] hch
  have hline : markerSpace ++ f0 ++ [','] ++ f1 ++ [','] ++ f2 ++ [','] ++ f3 ++ [','] ++ f4
      ++ [','] ++ f5 ++ [','] ++ f6 ++ [','] ++ f7 ++ [','] ++ f8 ++ [','] =
      markerSpace ++ joinFields [f0, f1, f2, f3, f4, f5, f6, f7, f8] [] := by
    simp [joinFields]
  rw [hline]
  simpa using processLine_of_pattern _ f1 f2 _ [] hdp

/-- C10 (witness): the spec's example line with its text removed still yields a
record with empty dialog. -/
theorem c10_empty_text_witness :
    ("0".toList.count ',' = 0 ∧ "0:00:01.00".toList.count ',' = 0) ∧
    processLine (markerSpace ++ "0".toList ++ [','] ++ "0:00:01.00".toList ++ [','] ++
        "0:00:02.00".toList ++ [','] ++ "Default".toList ++ [','] ++ [] ++ [','] ++ "0".toList
        ++ [','] ++ "0".toList ++ [','] ++ "0".toList ++ [','] ++ [] ++ [',']) =
      some { start_time := "0:00:01.00".toList, end_time := "0:00:02.00".toList, dialog := [] } :=
  ⟨⟨by decide, by decide⟩,
   c10_empty_text "0".toList "0:00:01.00".toList "0:00:02.00".toList "Default".toList []
     "0".toList "0".toList "0".toList []
     (by decide) (by decide) (by decide) (by decide) (by decide) (by decide) (by decide)
     (by decide) (by decide)⟩

/-- Intercalation of a singleton is the element itself. -/
lemma intercalate_singleton (sep x : List Char) : List.intercalate sep [x] = x := by
  simp [List.intercalate, List.intersperse]

/-- Intercalation peels a head element and one separator. -/
lemma intercalate_cons_cons (sep a b : List Char) (t : List (List Char)) :
    List.intercalate sep (a :: b :: t) = a ++ sep ++ List.intercalate sep (b :: t) := by
  simp [List.intercalate, List.intersperse_cons_cons, List.append_assoc]

/-- The iterative item writer agrees with separator intercalation over the
encoded records, in order. -/
lemma dumpItems_eq : ∀ (r : DialogueRecord) (rs : List DialogueRecord),
    dumpItems (r :: rs) =
      List.intercalate (",\n  ".toList) ((r :: rs).map encodeRecord) := by
  intro r rs
  induction rs generalizing r with
  | nil => simp [dumpItems, intercalate_singleton]
  | cons b t ih =>
    rw [show dumpItems (r :: b :: t) = encodeRecord r ++ ",\n  ".toList ++ dumpItems (b :: t)
        from rfl,
      ih b]
    simp [intercalate_cons_cons, List.map_cons, List.append_assoc]

/-- Characters at or above the space that are neither the quote nor the
backslash pass through the JSON escaper unchanged. -/
lemma escapeChar_plain (c : Char) (h1 : 32 ≤ c.toNat) (h2 : c ≠ '"') (h3 : c ≠ '\\') :
    escapeChar c = [c] := by
  have e1 : c ≠ '\x08' := fun e => absurd (e ▸ h1) (by decide)
  have e2 : c ≠ '\x0c' := fun e => absurd (e ▸ h1) (by decide)
  have e3 : c ≠ '\n' := fun e => absurd (e ▸ h1) (by decide)
  have e4 : c ≠ '\r' := fun e => absurd (e ▸ h1) (by decide)
  have e5 : c ≠ '\t' := fun e => absurd (e ▸ h1) (by decide)
  have e6 : ¬c.toNat < 32 := by omega
  simp [escapeChar, h2, h3, e1, e2, e3, e4, e5, e6]

/-- A string of plain characters is embedded into its JSON literal verbatim. -/
lemma flatten_map_escape : ∀ s : List Char,
    (∀ c ∈ s, 32 ≤ c.toNat ∧ c ≠ '"' ∧ c ≠ '\\') →
    (s.map escapeChar).flatten = s := by
  intro s
  induction s with
  | nil => intro _; rfl
  | cons c t ih =>
    intro hs
    obtain ⟨h1, h2, h3⟩ := hs c (List.mem_cons_self c t)
    simp only [List.map_cons, List.flatten_cons, escapeChar_plain c h1 h2 h3,
      List.singleton_append, List.cons.injEq, true_and]
    exact ih fun d hd => hs d (List.mem_cons_of_mem c hd)

/-- C8.  The serializer renders the record list as a JSON array whose items are
the per-record objects in list order, each object carrying exactly the keys
start_time, end_time, dialog in that order (see `encodeRecord`), and any
string whose characters are printable and need no JSON escape — all
non-ASCII characters included — is emitted literally between its quotes,
never as numeric escape sequences. -/
theorem c8_json_rendering (recs : List DialogueRecord) (s : List Char)
    (hs : ∀ c ∈ s, 32 ≤ c.toNat ∧ c ≠ '"' ∧ c ≠ '\\') :
    write_json recs =
      (if recs = [] then "[]".toList
       else "[\n  ".toList ++ List.intercalate (",\n  ".toList) (recs.map encodeRecord) ++
         "\n]".toList)
    ∧ encodeString s = '"' :: (s ++ ['"']) := by
  constructor
  · cases recs with
    | nil => simp [write_json]
    | cons r rs =>
      rw [if_neg (by simp)]
      rw [show write_json (r :: rs) =
          "[\n  ".toList ++ dumpItems (r :: rs) ++ "\n]".toList from rfl]
      rw [dumpItems_eq r rs]
  · unfold encodeString
    rw [flatten_map_escape s hs]

/-- C8 (witness): one record whose dialog holds non-ASCII characters is rendered
with those characters kept literal. -/
theorem c8_json_rendering_witness :
    (∀ c ∈ "héllo — ñ".toList, 32 ≤ c.toNat ∧ c ≠ '"' ∧ c ≠ '\\')
    ∧ (write_json [{ start_time := "0:00:01.00".toList, end_time := "0:00:02.00".toList,
                     dialog := "héllo — ñ".toList }] =
        (if ([{ start_time := "0:00:01.00".toList, end_time := "0:00:02.00".toList,
                dialog := "héllo — ñ".toList }] : List DialogueRecord) = [] then "[]".toList
         else "[\n  ".toList ++
           List.intercalate (",\n  ".toList)
             (([{ start_time := "0:00:01.00".toList, end_time := "0:00:02.00".toList,
                  dialog := "héllo — ñ".toList }] : List DialogueRecord).map encodeRecord) ++
           "\n]".toList)
        ∧ encodeString ("héllo — ñ".toList) = '"' :: ("héllo — ñ".toList ++ ['"'])) :=
  ⟨by decide, c8_json_rendering _ _ (by decide)⟩

/-- C9.  With a nonexistent input path `main` prints the not-found message and
returns with no output written; with an existing path whose suffix is not
`.ass` after lower-casing it prints the extension message and returns with no
output written; and when the conversion body ends in an exception the
exception is caught and converted to the printed error message — `main` is a
total function, so no failure escapes it. -/
theorem c9_cli_errors (p : List Char) (outArg : Option (List Char)) (ex : Bool)
    (proc : ProcOutcome) :
    (ex = false →
      Cli.main p outArg ex proc = { printed := [msgNotFound p], outputWritten := none })
    ∧ (ex = true → pyLower (pathSuffix p) ≠ ".ass".toList →
      Cli.main p outArg ex proc = { printed := [msgBadExt], outputWritten := none })
    ∧ (∀ e, ex = true → pyLower (pathSuffix p) = ".ass".toList → proc = ProcOutcome.err e →
      Cli.main p outArg ex proc = { printed := [msgError e], outputWritten := none }) := by
  refine ⟨?_, ?_, ?_⟩
  · intro h
    subst h
    rfl
  · intro h hsuf
    subst h
    simp only [Cli.main]
    rw [if_neg (by decide), if_pos hsuf]
  · intro e h hsuf hproc
    subst h
    subst hproc
    simp only [Cli.main]
    rw [if_neg (by decide), if_neg (by simp [hsuf])]

/-- C9 (witness): the three failure modes at concrete inputs. -/
theorem c9_cli_errors_witness :
    Cli.main ("missing.ass".toList) none false (ProcOutcome.ok []) =
      { printed := [msgNotFound ("missing.ass".toList)], outputWritten := none }
    ∧ pyLower (pathSuffix ("notes.txt".toList)) ≠ ".ass".toList
    ∧ Cli.main ("notes.txt".toList) none true (ProcOutcome.ok []) =
        { printed := [msgBadExt], outputWritten := none }
    ∧ Cli.main ("video.ASS".toList) none true (ProcOutcome.err ("boom".toList)) =
        { printed := [msgError ("boom".toList)], outputWritten := none } :=
  ⟨(c9_cli_errors ("missing.ass".toList) none false (ProcOutcome.ok [])).1 rfl,
   by decide,
   (c9_cli_errors ("notes.txt".toList) none true (ProcOutcome.ok [])).2.1 rfl (by decide),
   (c9_cli_errors ("video.ASS".toList) none true
      (ProcOutcome.err ("boom".toList))).2.2 ("boom".toList) rfl (by decide) rfl⟩
